import Mathlib

set_option maxRecDepth 8192

/-!
Verification of the distwiz sparse-to-square distance matrix converter.

The repository carries three near-duplicate Go variants of the converter.
The canonical program (the one matching the README: a label scan followed by
threshold-based selection of an in-memory or disk-scanning densification) is
embedded in the `DistWiz` namespace; the legacy single-pass variant with its
strict `readSparseMatrix` ingest is embedded in the `Legacy` namespace.

Strings stand for the raw input lines (as produced by bufio.Scanner, one line
per list element, newline stripped).  Distances are modelled by `GoFloat`:
exact rationals for finite values plus the infinities and NaN accepted by
strconv.ParseFloat.  Hexadecimal float literals and digit-group underscores,
both accepted by recent strconv.ParseFloat, are not modelled; no claim
depends on them.
-/

/-- Whitespace class used by strings.Fields (the Latin-1 portion of
unicode.IsSpace; the rarer Unicode space code points are not modelled). -/
def goIsSpace (c : Char) : Bool :=
  c == ' ' || c == '\t' || c == '\n' || c == '\u000B' || c == '\u000C' ||
  c == '\r' || c == '\u0085' || c == ' '

/-- Accumulator-based splitting of a character list into maximal runs of
non-whitespace characters (the loop behind strings.Fields). -/
def fieldsAux : List Char → List Char → List (List Char)
  | [], acc => if acc.isEmpty then [] else [acc.reverse]
  | c :: rest, acc =>
    if goIsSpace c then
      if acc.isEmpty then fieldsAux rest [] else acc.reverse :: fieldsAux rest []
    else fieldsAux rest (c :: acc)

/-- strings.Fields: split a line around runs of whitespace, dropping empties. -/
def strFields (s : String) : List String :=
  (fieldsAux s.toList []).map fun cs => String.mk cs

/-- Numeric value of a list of decimal digit characters. -/
def digVal (l : List Char) : ℕ :=
  l.foldl (fun a c => 10 * a + (c.toNat - 48)) 0

/-- Model of a Go float64 as far as this program observes it: an exact
rational for finite values, plus the infinities and NaN that
strconv.ParseFloat also accepts. -/
inductive GoFloat where
  | finite (q : ℚ)
  | pinf
  | ninf
  | nan
deriving DecidableEq, Repr

/-- Split a character list at the first exponent marker `e`/`E`. -/
def splitAtE : List Char → List Char × Option (List Char)
  | [] => ([], none)
  | c :: rest =>
    if c == 'e' || c == 'E' then ([], some rest)
    else
      let p := splitAtE rest
      (c :: p.1, p.2)

/-- Split a character list at the first `.`. -/
def splitDotAux : List Char → List Char × Option (List Char)
  | [] => ([], none)
  | c :: rest =>
    if c == '.' then ([], some rest)
    else
      let p := splitDotAux rest
      (c :: p.1, p.2)

/-- A finite decimal value of magnitude at least 2 ^ 1024, too large for a
float64; ParseFloat reports ErrRange there, which every caller in the program
treats as a parse failure. -/
def overflows (q : ℚ) : Bool :=
  decide (q.den ≤ q.num.natAbs >>> 1024)

/-- Assemble the rational value of a parsed decimal literal
sign * (intDigits . fracDigits) * 10 ^ exponent, as an exact rational. -/
def mkFin (sign : ℤ) (ids fds : List Char) (e : ℤ) : Option GoFloat :=
  let mant : ℕ := digVal ids * 10 ^ fds.length + digVal fds
  let shift : ℤ := e - fds.length
  let q : ℚ :=
    if 0 ≤ shift then mkRat (sign * (mant * 10 ^ shift.toNat : ℕ)) 1
    else mkRat (sign * mant) (10 ^ (-shift).toNat)
  if overflows q then none else some (GoFloat.finite q)

/-- Parse the decimal (non-special) forms accepted by strconv.ParseFloat:
digits with an optional dot and an optional signed exponent. -/
def parseDec (sign : ℤ) (cs : List Char) : Option GoFloat :=
  let p := splitAtE cs
  let q := splitDotAux p.1
  let ids := q.1
  let fds := match q.2 with | some l => l | none => []
  if ids.all Char.isDigit && fds.all Char.isDigit &&
      (!ids.isEmpty || !fds.isEmpty) then
    match p.2 with
    | none => mkFin sign ids fds 0
    | some ecs =>
      match ecs with
      | '+' :: ed =>
        if !ed.isEmpty && ed.all Char.isDigit then mkFin sign ids fds (digVal ed)
        else none
      | '-' :: ed =>
        if !ed.isEmpty && ed.all Char.isDigit then
          mkFin sign ids fds (-(digVal ed : ℤ))
        else none
      | ed =>
        if !ed.isEmpty && ed.all Char.isDigit then mkFin sign ids fds (digVal ed)
        else none
  else none

/-- strconv.ParseFloat(s, 64): optional sign, then either a case-insensitive
infinity/NaN spelling or a decimal literal.  Returns none exactly when
ParseFloat returns a non-nil error. -/
def parseFloat (s : String) : Option GoFloat :=
  match s.toList with
  | [] => none
  | cs =>
    let sr : ℤ × List Char :=
      match cs with
      | '+' :: r => (1, r)
      | '-' :: r => (-1, r)
      | r => (1, r)
    let low := sr.2.map Char.toLower
    if low == ['i', 'n', 'f'] || low == ['i', 'n', 'f', 'i', 'n', 'i', 't', 'y'] then
      some (if sr.1 = 1 then GoFloat.pinf else GoFloat.ninf)
    else if low == ['n', 'a', 'n'] then some GoFloat.nan
    else parseDec sr.1 sr.2

/-- Lexicographic comparison of character lists (the order behind Go's
byte-wise string comparison; UTF-8 encoding preserves code-point order). -/
def listLe : List Char → List Char → Bool
  | [], _ => true
  | _ :: _, [] => false
  | a :: as, b :: bs =>
    if a < b then true
    else if b < a then false
    else listLe as bs

/-- String comparison used by sort.Strings, as a computable function. -/
def strLe (a b : String) : Bool :=
  listLe a.toList b.toList

/-- The sort order used throughout: ascending lexicographic. -/
def strLeR : String → String → Prop :=
  fun a b => strLe a b = true

instance : DecidableRel strLeR :=
  fun a b => instDecidableEqBool (strLe a b) true

/-- fmt.Sprintf with format %.1f: round |q| * 10 to the nearest integer
(ties to even) and print one digit after the decimal point; the special
values print as +Inf, -Inf and NaN. -/
def fmt1 : GoFloat → String
  | GoFloat.finite q =>
    let t : ℕ := q.num.natAbs * 10
    let d : ℕ := q.den
    let n0 := t / d
    let r := t % d
    let n : ℕ :=
      if 2 * r < d then n0
      else if d < 2 * r then n0 + 1
      else if n0 % 2 = 0 then n0 else n0 + 1
    (if q.num < 0 then "-" else "") ++ toString (n / 10) ++ "." ++ toString (n % 10)
  | GoFloat.pinf => "+Inf"
  | GoFloat.ninf => "-Inf"
  | GoFloat.nan => "NaN"

example : strFields "A B 0.5" = ["A", "B", "0.5"] := by decide
example : strFields "  A   B  " = ["A", "B"] := by decide
example : strFields "" = [] := by decide
example : parseFloat "0.5" = some (GoFloat.finite (mkRat 1 2)) := by decide
example : parseFloat "0.1" = some (GoFloat.finite (mkRat 1 10)) := by decide
example : parseFloat "1e2" = some (GoFloat.finite 100) := by decide
example : parseFloat "-2.5e-1" = some (GoFloat.finite (mkRat (-1) 4)) := by decide
example : parseFloat "Inf" = some GoFloat.pinf := by decide
example : parseFloat "-inf" = some GoFloat.ninf := by decide
example : parseFloat "NaN" = some GoFloat.nan := by decide
example : parseFloat "x" = none := by decide
example : parseFloat "" = none := by decide
example : parseFloat "1.2.3" = none := by decide
example : parseFloat "1e" = none := by decide
example : fmt1 (GoFloat.finite (mkRat 9 10)) = "0.9" := by decide
example : fmt1 (GoFloat.finite 0) = "0.0" := by decide
example : fmt1 (GoFloat.finite 1) = "1.0" := by decide
example : fmt1 (GoFloat.finite (mkRat (-1) 4)) = "-0.2" := by decide
example : fmt1 (GoFloat.finite (mkRat 123 10)) = "12.3" := by decide
example : fmt1 (GoFloat.finite (mkRat 1 4)) = "0.2" := by decide
example : fmt1 (GoFloat.finite (mkRat 3 4)) = "0.8" := by decide
example : fmt1 GoFloat.pinf = "+Inf" := by decide

/-!
The canonical threshold-based program (README behaviour): scanForLabels,
the mode selector, the disk-scanning row writer and the in-memory store.
The input file is modelled as the list of its lines, as delivered by
bufio.Scanner; the uncompressed text fed to the gzip writer is modelled as
the result String (the gzip codec itself is an external collaborator).
-/

namespace DistWiz

/-- One strict line parse: exactly three whitespace-delimited fields whose
third field ParseFloat accepts.  Both stores use this triple shape. -/
def parseLine (line : String) : Option (String × String × GoFloat) :=
  match strFields line with
  | [l1, l2, d] =>
    match parseFloat d with
    | some v => some (l1, l2, v)
    | none => none
  | _ => none

/-- Add a label to the set of labels seen so far (set semantics of the Go
map labelsSet; insertion order is irrelevant after the final sort). -/
def insertLabel (acc : List String) (x : String) : List String :=
  if x ∈ acc then acc else acc ++ [x]

/-- One line of the label-discovery scan: lines with fewer than two fields
are skipped silently, otherwise the first two fields are recorded. -/
def scanStep (acc : List String) (line : String) : List String :=
  match strFields line with
  | p0 :: p1 :: _ => insertLabel (insertLabel acc p0) p1
  | _ => acc

/-- The set of labels collected by scanForLabels before sorting. -/
def scanLabelsSet (lines : List String) : List String :=
  lines.foldl scanStep []

/-- scanForLabels: all distinct labels from the first two fields of lines
with at least two fields, sorted with sort.Strings. -/
def scanForLabels (lines : List String) : List String :=
  List.insertionSort strLeR (scanLabelsSet lines)

/-- Threshold for deciding between processing methods. -/
def LargeNThreshold : ℕ := 10000

/-- The two Distance Store strategies. -/
inductive ProcessingMode where
  | inMemory
  | diskBased
deriving DecidableEq, Repr

/-- The mode decision made in main: disk-based processing exactly when the
label count exceeds LargeNThreshold. -/
def chooseMode (labelCount : ℕ) : ProcessingMode :=
  if labelCount > LargeNThreshold then ProcessingMode.diskBased
  else ProcessingMode.inMemory

/-- Write one binding of a nested map data[k1][k2] = v. -/
def updD (m : String → String → Option GoFloat) (k1 k2 : String) (v : GoFloat) :
    String → String → Option GoFloat :=
  fun a b => if a = k1 ∧ b = k2 then some v else m a b

/-- One line of readInputFileIntoMemory: skip lines that are not exactly
three fields or whose distance does not parse; otherwise write the distance
under both orientations of the label pair. -/
def memStep (m : String → String → Option GoFloat) (line : String) :
    String → String → Option GoFloat :=
  match parseLine line with
  | some (l1, l2, v) => updD (updD m l1 l2 v) l2 l1 v
  | none => m

/-- readInputFileIntoMemory: the nested symmetric map built from the whole
input. -/
def readInputFileIntoMemory (lines : List String) :
    String → String → Option GoFloat :=
  lines.foldl memStep (fun _ _ => none)

/-- One cell of an in-memory row: "0.0" on the diagonal before any lookup,
the stored distance formatted with %.1f when present, else the default
"1.0". -/
def cellMem (data : String → String → Option GoFloat) (label1 label2 : String) :
    String :=
  if label1 = label2 then "0.0"
  else
    match data label1 label2 with
    | some d => fmt1 d
    | none => "1.0"

/-- The row slice built by writeRowInMemory before joining. -/
def rowCellsMem (label1 : String) (labels : List String)
    (data : String → String → Option GoFloat) : List String :=
  labels.map (cellMem data label1)

/-- writeRowInMemory: one tab-joined, newline-terminated output row. -/
def writeRowInMemory (label1 : String) (labels : List String)
    (data : String → String → Option GoFloat) : String :=
  String.intercalate "\t" (rowCellsMem label1 labels data) ++ "\n"

/-- The header line: the labels tab-joined, newline-terminated. -/
def headerLine (labels : List String) : String :=
  String.intercalate "\t" labels ++ "\n"

/-- The data rows of the in-memory pipeline, in label order. -/
def rowsInMemory (lines labels : List String) : List String :=
  labels.map fun l1 => writeRowInMemory l1 labels (readInputFileIntoMemory lines)

/-- writeSquareMatrixInMemory: full uncompressed output text of the
in-memory pipeline. -/
def writeSquareMatrixInMemory (lines labels : List String) : String :=
  headerLine labels ++ String.join (rowsInMemory lines labels)

/-- Write one binding of a flat map m[k] = v. -/
def upd (m : String → Option GoFloat) (k : String) (v : GoFloat) :
    String → Option GoFloat :=
  fun x => if x = k then some v else m x

/-- One line of the per-row disk scan in writeRow: keep only valid lines
touching label1; the opposite label keys the distance. -/
def rowStep (label1 : String) (m : String → Option GoFloat) (line : String) :
    String → Option GoFloat :=
  match strFields line with
  | [p0, p1, p2] =>
    if p0 = label1 ∨ p1 = label1 then
      match parseFloat p2 with
      | some v => if p0 = label1 then upd m p1 v else upd m p0 v
      | none => m
    else m
  | _ => m

/-- The row-local lookup writeRow accumulates for label1 by re-reading the
whole input. -/
def scanRowDistances (label1 : String) (lines : List String) :
    String → Option GoFloat :=
  lines.foldl (rowStep label1) (fun _ => none)

/-- One cell of a disk-mode row: diagonal short-circuit, then lookup with
default "1.0". -/
def cellDisk (distances : String → Option GoFloat) (label1 label2 : String) :
    String :=
  if label1 = label2 then "0.0"
  else
    match distances label2 with
    | some d => fmt1 d
    | none => "1.0"

/-- The row slice built by writeRow before joining. -/
def rowCellsDisk (lines : List String) (label1 : String) (labels : List String) :
    List String :=
  labels.map (cellDisk (scanRowDistances label1 lines) label1)

/-- writeRow: one tab-joined, newline-terminated output row of the
disk-scanning pipeline. -/
def writeRow (lines : List String) (label1 : String) (labels : List String) :
    String :=
  String.intercalate "\t" (rowCellsDisk lines label1 labels) ++ "\n"

/-- writeSquareMatrix: full uncompressed output text of the disk-scanning
pipeline. -/
def writeSquareMatrix (lines labels : List String) : String :=
  headerLine labels ++ String.join (labels.map fun l1 => writeRow lines l1 labels)

/-- A line mentions the unordered pair (a, b) if it parses strictly and its
two labels are a and b in either orientation. -/
def mentionsPair (line a b : String) : Bool :=
  match parseLine line with
  | some (p0, p1, _) => (p0 == a && p1 == b) || (p0 == b && p1 == a)
  | none => false

end DistWiz

/-!
The legacy single-pass variant: a strict readSparseMatrix ingest keyed by
the ordered label pair, and its matrix writer.
-/

namespace Legacy

/-- The two fatal parse failures of the strict ingest. -/
inductive FormatError where
  | wrongFieldCount
  | badFloat (field : String)
deriving DecidableEq, Repr

/-- The error the strict ingest reports for a given malformed line. -/
def lineError (line : String) : FormatError :=
  match strFields line with
  | [_, _, d] => FormatError.badFloat d
  | _ => FormatError.wrongFieldCount

/-- Write one binding of the pair-keyed map distances[[2]string{l1,l2}] = v. -/
def updP (m : String × String → Option GoFloat) (k : String × String)
    (v : GoFloat) : String × String → Option GoFloat :=
  fun x => if x = k then some v else m x

/-- The scanner loop of readSparseMatrix: fail on the first line that is not
exactly three fields or whose distance does not parse; otherwise store under
the ordered pair (one orientation only) and collect both labels. -/
def loop : List String → (String × String → Option GoFloat) → List String →
    Except FormatError ((String × String → Option GoFloat) × List String)
  | [], distances, labelsList =>
    .ok (distances, List.insertionSort strLeR labelsList)
  | line :: rest, distances, labelsList =>
    match strFields line with
    | [l1, l2, d] =>
      match parseFloat d with
      | some v =>
        loop rest (updP distances (l1, l2) v)
          (DistWiz.insertLabel (DistWiz.insertLabel labelsList l1) l2)
      | none => .error (FormatError.badFloat d)
    | _ => .error FormatError.wrongFieldCount

/-- readSparseMatrix of the legacy variant. -/
def readSparseMatrix (lines : List String) :
    Except FormatError ((String × String → Option GoFloat) × List String) :=
  loop lines (fun _ => none) []

/-- One cell of the legacy writer: the float chosen by the default / diagonal
/ ordered lookup chain, formatted with %.1f. -/
def cell (distances : String × String → Option GoFloat) (label1 label2 : String) :
    String :=
  fmt1
    (if label1 = label2 then GoFloat.finite 0
     else
       match distances (label1, label2) with
       | some d => d
       | none => GoFloat.finite 1)

/-- The legacy writeSquareMatrix output text. -/
def writeSquareMatrix (distances : String × String → Option GoFloat)
    (labels : List String) : String :=
  DistWiz.headerLine labels ++
    String.join
      (labels.map fun l1 =>
        String.intercalate "\t" (labels.map (cell distances l1)) ++ "\n")

end Legacy

/-- A line contributes a token t to label discovery when t is one of its
first two whitespace-delimited fields (lines with fewer than two fields
contribute nothing). -/
def lineTok (l t : String) : Prop :=
  match strFields l with
  | p0 :: p1 :: _ => t = p0 ∨ t = p1
  | _ => False

example : DistWiz.scanForLabels ["B C 0.2", "A B 0.5"] = ["A", "B", "C"] := by
  decide
example : DistWiz.scanForLabels ["X Y"] = ["X", "Y"] := by decide
example : DistWiz.scanForLabels ["X"] = [] := by decide
example :
    DistWiz.readInputFileIntoMemory ["A B 0.5"] "B" "A" =
      some (GoFloat.finite (mkRat 1 2)) := by decide
example :
    DistWiz.writeSquareMatrixInMemory ["A B 0.5", "B C 0.2"]
        (DistWiz.scanForLabels ["A B 0.5", "B C 0.2"]) =
      "A\tB\tC\n0.0\t0.5\t1.0\n0.5\t0.0\t0.2\n1.0\t0.2\t0.0\n" := by decide
example :
    DistWiz.writeSquareMatrix ["A B 0.5", "B C 0.2"]
        (DistWiz.scanForLabels ["A B 0.5", "B C 0.2"]) =
      "A\tB\tC\n0.0\t0.5\t1.0\n0.5\t0.0\t0.2\n1.0\t0.2\t0.0\n" := by decide
example : Legacy.readSparseMatrix ["X Y"] = .error .wrongFieldCount := by rfl
example :
    Legacy.readSparseMatrix ["A B x"] = .error (.badFloat "x") := by rfl

/-!
Helper lemmas about the two stores.
-/

lemma parseLine_inv {line x y : String} {w : GoFloat}
    (h : DistWiz.parseLine line = some (x, y, w)) :
    ∃ s, strFields line = [x, y, s] ∧ parseFloat s = some w := by
  unfold DistWiz.parseLine at h
  rcases hf : strFields line with _ | ⟨p0, _ | ⟨p1, _ | ⟨p2, _ | ⟨p3, rest⟩⟩⟩⟩ <;>
      rw [hf] at h <;> try simp at h
  cases hp : parseFloat p2 with
  | none => rw [hp] at h; simp at h
  | some v =>
    rw [hp] at h
    simp only [Option.some.injEq, Prod.mk.injEq] at h
    obtain ⟨h1, h2, h3⟩ := h
    subst h1; subst h2; subst h3
    exact ⟨p2, rfl, hp⟩

lemma parseLine_of_fields {line x y s : String} {w : GoFloat}
    (hf : strFields line = [x, y, s]) (hp : parseFloat s = some w) :
    DistWiz.parseLine line = some (x, y, w) := by
  unfold DistWiz.parseLine
  rw [hf]
  simp [hp]

lemma rowStep_eq_memStep (l1 l2 : String) (h12 : l1 ≠ l2)
    (m : String → Option GoFloat) (M : String → String → Option GoFloat)
    (hinv : m l2 = M l1 l2) (line : String) :
    DistWiz.rowStep l1 m line l2 = DistWiz.memStep M line l1 l2 := by
  rcases hf : strFields line with _ | ⟨p0, _ | ⟨p1, _ | ⟨p2, _ | ⟨p3, rest⟩⟩⟩⟩ <;>
      simp only [DistWiz.rowStep, DistWiz.memStep, DistWiz.parseLine, hf] <;>
      try exact hinv
  cases hp : parseFloat p2 with
  | none =>
    simp only [hp, ite_self]
    exact hinv
  | some v =>
    simp only [hp, DistWiz.upd, DistWiz.updD]
    by_cases h0 : p0 = l1 <;> by_cases h1 : p1 = l1 <;>
        by_cases h2 : l2 = p0 <;> by_cases h3 : l2 = p1 <;>
      simp_all [DistWiz.upd, DistWiz.updD, eq_comm]

lemma foldl_rowStep_eq_memStep (l1 l2 : String) (h12 : l1 ≠ l2) :
    ∀ (lines : List String) (m : String → Option GoFloat)
      (M : String → String → Option GoFloat), m l2 = M l1 l2 →
      (lines.foldl (DistWiz.rowStep l1) m) l2 = (lines.foldl DistWiz.memStep M) l1 l2
  | [], _, _, hinv => hinv
  | line :: rest, m, M, hinv =>
    foldl_rowStep_eq_memStep l1 l2 h12 rest _ _
      (rowStep_eq_memStep l1 l2 h12 m M hinv line)

lemma scanRowDistances_eq_mem (l1 l2 : String) (h12 : l1 ≠ l2)
    (lines : List String) :
    DistWiz.scanRowDistances l1 lines l2 =
      DistWiz.readInputFileIntoMemory lines l1 l2 :=
  foldl_rowStep_eq_memStep l1 l2 h12 lines _ _ rfl

lemma cellDisk_eq_cellMem (lines : List String) (l1 l2 : String) :
    DistWiz.cellDisk (DistWiz.scanRowDistances l1 lines) l1 l2 =
      DistWiz.cellMem (DistWiz.readInputFileIntoMemory lines) l1 l2 := by
  by_cases h12 : l1 = l2
  · simp [DistWiz.cellDisk, DistWiz.cellMem, h12]
  · simp only [DistWiz.cellDisk, DistWiz.cellMem, if_neg h12]
    rw [scanRowDistances_eq_mem l1 l2 h12 lines]

lemma writeRow_eq_writeRowInMemory (lines labels : List String) (l1 : String) :
    DistWiz.writeRow lines l1 labels =
      DistWiz.writeRowInMemory l1 labels (DistWiz.readInputFileIntoMemory lines) := by
  unfold DistWiz.writeRow DistWiz.writeRowInMemory DistWiz.rowCellsDisk
    DistWiz.rowCellsMem
  congr 1
  congr 1
  exact List.map_congr_left fun l2 _ => cellDisk_eq_cellMem lines l1 l2

lemma memStep_no_mention {line a b : String}
    (h : DistWiz.mentionsPair line a b = false)
    (M : String → String → Option GoFloat) :
    DistWiz.memStep M line a b = M a b ∧ DistWiz.memStep M line b a = M b a := by
  unfold DistWiz.mentionsPair at h
  unfold DistWiz.memStep
  cases hp : DistWiz.parseLine line with
  | none => exact ⟨rfl, rfl⟩
  | some t =>
    obtain ⟨p0, p1, v⟩ := t
    rw [hp] at h
    simp only [Bool.or_eq_false_iff, Bool.and_eq_false_iff, beq_eq_false_iff_ne,
      ne_eq] at h
    simp only [DistWiz.updD]
    constructor
    · split_ifs with h1 h2 <;> try rfl
      · rcases h.2 with hc | hc
        · exact absurd h1.2.symm hc
        · exact absurd h1.1.symm hc
      · rcases h.1 with hc | hc
        · exact absurd h2.1.symm hc
        · exact absurd h2.2.symm hc
    · split_ifs with h1 h2 <;> try rfl
      · rcases h.1 with hc | hc
        · exact absurd h1.2.symm hc
        · exact absurd h1.1.symm hc
      · rcases h.2 with hc | hc
        · exact absurd h2.1.symm hc
        · exact absurd h2.2.symm hc

lemma foldl_mem_no_mention {a b : String} :
    ∀ (lines : List String), (∀ l ∈ lines, DistWiz.mentionsPair l a b = false) →
      ∀ (M : String → String → Option GoFloat),
        (lines.foldl DistWiz.memStep M) a b = M a b ∧
        (lines.foldl DistWiz.memStep M) b a = M b a
  | [], _, _ => ⟨rfl, rfl⟩
  | line :: rest, h, M => by
    have h1 := memStep_no_mention (h line (by simp)) M
    have h2 := foldl_mem_no_mention rest (fun l hl => h l (by simp [hl]))
      (DistWiz.memStep M line)
    exact ⟨h2.1.trans h1.1, h2.2.trans h1.2⟩

lemma memStep_mention {a b line : String} {v : GoFloat}
    (h : DistWiz.parseLine line = some (a, b, v) ∨
      DistWiz.parseLine line = some (b, a, v))
    (M : String → String → Option GoFloat) :
    DistWiz.memStep M line a b = some v ∧ DistWiz.memStep M line b a = some v := by
  unfold DistWiz.memStep
  cases h with
  | inl h =>
    rw [h]
    simp only [DistWiz.updD]
    constructor
    · split_ifs <;> first | rfl | simp_all
    · split_ifs <;> first | rfl | simp_all
  | inr h =>
    rw [h]
    simp only [DistWiz.updD]
    constructor
    · split_ifs <;> first | rfl | simp_all
    · split_ifs <;> first | rfl | simp_all

lemma mem_resolve {a b : String} {v : GoFloat} (pre post : List String)
    (line : String)
    (hline : DistWiz.parseLine line = some (a, b, v) ∨
      DistWiz.parseLine line = some (b, a, v))
    (hpost : ∀ l ∈ post, DistWiz.mentionsPair l a b = false) :
    DistWiz.readInputFileIntoMemory (pre ++ line :: post) a b = some v ∧
    DistWiz.readInputFileIntoMemory (pre ++ line :: post) b a = some v := by
  unfold DistWiz.readInputFileIntoMemory
  rw [List.foldl_append]
  simp only [List.foldl_cons]
  have hstep := memStep_mention hline
    (List.foldl DistWiz.memStep (fun _ _ => none) pre)
  have hfold := foldl_mem_no_mention post hpost
    (DistWiz.memStep (List.foldl DistWiz.memStep (fun _ _ => none) pre) line)
  exact ⟨hfold.1.trans hstep.1, hfold.2.trans hstep.2⟩

lemma memStep_symm {M : String → String → Option GoFloat}
    (h : ∀ x y, M x y = M y x) (line : String) :
    ∀ x y, DistWiz.memStep M line x y = DistWiz.memStep M line y x := by
  intro x y
  unfold DistWiz.memStep
  cases hp : DistWiz.parseLine line with
  | none => exact h x y
  | some t =>
    obtain ⟨p0, p1, v⟩ := t
    simp only [DistWiz.updD]
    split_ifs <;> first | rfl | tauto

lemma mem_store_symm (lines : List String) :
    ∀ x y, DistWiz.readInputFileIntoMemory lines x y =
      DistWiz.readInputFileIntoMemory lines y x := by
  unfold DistWiz.readInputFileIntoMemory
  suffices h : ∀ (M : String → String → Option GoFloat),
      (∀ x y, M x y = M y x) →
      ∀ x y, (lines.foldl DistWiz.memStep M) x y =
        (lines.foldl DistWiz.memStep M) y x from
    h _ (fun _ _ => rfl)
  induction lines with
  | nil => intro M hM; exact hM
  | cons line rest ih =>
    intro M hM
    simp only [List.foldl_cons]
    exact ih _ (memStep_symm hM line)

/-- C2: for every input and label index, the disk-scanning pipeline
(writeSquareMatrix driving writeRow) and the in-memory pipeline
(writeSquareMatrixInMemory driving readInputFileIntoMemory) produce
byte-identical uncompressed output: same header, same rows, same order. -/
theorem disk_inMemory_equivalent (lines labels : List String) :
    DistWiz.writeSquareMatrix lines labels =
      DistWiz.writeSquareMatrixInMemory lines labels := by
  unfold DistWiz.writeSquareMatrix DistWiz.writeSquareMatrixInMemory
    DistWiz.rowsInMemory
  congr 1
  congr 1
  exact List.map_congr_left fun l1 _ => writeRow_eq_writeRowInMemory lines labels l1

/-- C1: when a pair (a, b) is mentioned by a well-formed line, in either
orientation, and by no later line, both emitted in-memory cells carry that
distance formatted with %.1f, and the whole in-memory cell matrix is
symmetric because the store writes both orientations on ingest. -/
theorem inMemory_matrix_symmetric (lines : List String) (a b : String)
    (pre post : List String) (line : String) (v : GoFloat)
    (hsplit : lines = pre ++ line :: post)
    (hline : DistWiz.parseLine line = some (a, b, v) ∨
      DistWiz.parseLine line = some (b, a, v))
    (hpost : ∀ l ∈ post, DistWiz.mentionsPair l a b = false)
    (hab : a ≠ b) :
    DistWiz.cellMem (DistWiz.readInputFileIntoMemory lines) a b = fmt1 v ∧
    DistWiz.cellMem (DistWiz.readInputFileIntoMemory lines) b a = fmt1 v ∧
    ∀ x y, DistWiz.cellMem (DistWiz.readInputFileIntoMemory lines) x y =
      DistWiz.cellMem (DistWiz.readInputFileIntoMemory lines) y x := by
  subst hsplit
  obtain ⟨h1, h2⟩ := mem_resolve pre post line hline hpost
  refine ⟨?_, ?_, ?_⟩
  · simp [DistWiz.cellMem, hab, h1]
  · simp [DistWiz.cellMem, Ne.symm hab, h2]
  · intro x y
    by_cases hxy : x = y
    · simp [DistWiz.cellMem, hxy]
    · simp only [DistWiz.cellMem, if_neg hxy, if_neg (Ne.symm hxy)]
      rw [mem_store_symm _ x y]

/-- Witness for C1 at the reversed-orientation input line "B A 0.5". -/
theorem inMemory_matrix_symmetric_witness :
    DistWiz.cellMem (DistWiz.readInputFileIntoMemory ["B A 0.5"]) "A" "B" =
      fmt1 (GoFloat.finite (mkRat 1 2)) ∧
    DistWiz.cellMem (DistWiz.readInputFileIntoMemory ["B A 0.5"]) "B" "A" =
      fmt1 (GoFloat.finite (mkRat 1 2)) :=
  have h := inMemory_matrix_symmetric ["B A 0.5"] "A" "B" [] [] "B A 0.5"
    (GoFloat.finite (mkRat 1 2)) rfl (Or.inr (by decide)) (by decide) (by decide)
  ⟨h.1, h.2.1⟩

/-!
Helper lemmas about the legacy strict ingest.
-/

lemma loop_cons_good {line l1 l2 s : String} {v : GoFloat}
    (hf : strFields line = [l1, l2, s]) (hp : parseFloat s = some v)
    (rest : List String) (d : String × String → Option GoFloat)
    (ls : List String) :
    Legacy.loop (line :: rest) d ls =
      Legacy.loop rest (Legacy.updP d (l1, l2) v)
        (DistWiz.insertLabel (DistWiz.insertLabel ls l1) l2) := by
  simp only [Legacy.loop, hf, hp]

lemma loop_split :
    ∀ (a : List String) {b : List String}
      {d : String × String → Option GoFloat} {ls : List String}
      {st : String × String → Option GoFloat} {out : List String},
      Legacy.loop (a ++ b) d ls = .ok (st, out) →
      ∃ d2 ls2, Legacy.loop b d2 ls2 = .ok (st, out)
  | [], _, d, ls, _, _, h => ⟨d, ls, h⟩
  | line :: rest, b, d, ls, st, out, h => by
    rcases hf : strFields line with _ | ⟨l1, _ | ⟨l2, _ | ⟨s, _ | ⟨x, xs⟩⟩⟩⟩ <;>
        rw [List.cons_append] at h <;>
        simp only [Legacy.loop, hf] at h <;>
        first
        | exact absurd h (by simp)
        | cases hp : parseFloat s with
          | none => rw [hp] at h; simp at h
          | some v =>
            rw [hp] at h
            exact loop_split rest h

lemma loop_pair_preserved {a b : String} :
    ∀ (lines : List String),
      (∀ l ∈ lines, DistWiz.mentionsPair l a b = false) →
      ∀ {d : String × String → Option GoFloat} {ls : List String}
        {st : String × String → Option GoFloat} {out : List String},
        Legacy.loop lines d ls = .ok (st, out) → st (a, b) = d (a, b)
  | [], _, d, ls, st, out, h => by
    simp only [Legacy.loop, Except.ok.injEq, Prod.mk.injEq] at h
    rw [← h.1]
  | line :: rest, hno, d, ls, st, out, h => by
    rcases hf : strFields line with _ | ⟨l1, _ | ⟨l2, _ | ⟨s, _ | ⟨x, xs⟩⟩⟩⟩ <;>
        simp only [Legacy.loop, hf] at h <;>
        first
        | exact absurd h (by simp)
        | skip
    cases hp : parseFloat s with
    | none => rw [hp] at h; simp at h
    | some v =>
      rw [hp] at h
      have hmem := hno line (by simp)
      unfold DistWiz.mentionsPair at hmem
      rw [parseLine_of_fields hf hp] at hmem
      simp only [Bool.or_eq_false_iff, Bool.and_eq_false_iff,
        beq_eq_false_iff_ne, ne_eq] at hmem
      have hrest := loop_pair_preserved rest
        (fun l hl => hno l (by simp [hl])) h
      rw [hrest]
      unfold Legacy.updP
      rw [if_neg]
      intro hc
      rcases hmem.1 with hc1 | hc1
      · exact hc1 (congrArg Prod.fst hc).symm
      · exact hc1 (congrArg Prod.snd hc).symm

/-- C4: the mode decision is a pure function of the label count and the
threshold constant: in-memory exactly when the count is at most 10000.
There is no mode override in the program (see the claim record). -/
theorem mode_threshold_only :
    (∀ n, DistWiz.chooseMode n = DistWiz.ProcessingMode.inMemory ↔
      n ≤ DistWiz.LargeNThreshold) ∧
    DistWiz.chooseMode 5 = DistWiz.ProcessingMode.inMemory ∧
    DistWiz.chooseMode 10000 = DistWiz.ProcessingMode.inMemory ∧
    DistWiz.chooseMode 10001 = DistWiz.ProcessingMode.diskBased := by
  refine ⟨fun n => ?_, by decide, by decide, by decide⟩
  unfold DistWiz.chooseMode DistWiz.LargeNThreshold
  split_ifs with h
  · constructor
    · intro hc; exact absurd hc (by simp)
    · intro hc; exact absurd hc (by omega)
  · constructor
    · intro _; omega
    · intro _; rfl

/-- C6: for every position j of the label index, the emitted value at row j,
column j is the string "0.0", for both the in-memory and the disk-scanning
row builders. -/
theorem diagonal_zero (lines labels : List String) (j : ℕ)
    (h : j < labels.length) :
    (DistWiz.rowCellsMem (labels.get ⟨j, h⟩) labels
        (DistWiz.readInputFileIntoMemory lines)).get
      ⟨j, by simpa [DistWiz.rowCellsMem] using h⟩ = "0.0" ∧
    (DistWiz.rowCellsDisk lines (labels.get ⟨j, h⟩) labels).get
      ⟨j, by simpa [DistWiz.rowCellsDisk] using h⟩ = "0.0" := by
  constructor
  · show (List.map (DistWiz.cellMem (DistWiz.readInputFileIntoMemory lines)
        (labels.get ⟨j, h⟩)) labels).get ⟨j, by simpa using h⟩ = "0.0"
    rw [List.get_map]
    show DistWiz.cellMem (DistWiz.readInputFileIntoMemory lines)
        (labels.get ⟨j, h⟩) (labels.get ⟨j, h⟩) = "0.0"
    simp [DistWiz.cellMem]
  · show (List.map (DistWiz.cellDisk
        (DistWiz.scanRowDistances (labels.get ⟨j, h⟩) lines)
        (labels.get ⟨j, h⟩)) labels).get ⟨j, by simpa using h⟩ = "0.0"
    rw [List.get_map]
    show DistWiz.cellDisk
        (DistWiz.scanRowDistances (labels.get ⟨j, h⟩) lines)
        (labels.get ⟨j, h⟩) (labels.get ⟨j, h⟩) = "0.0"
    simp [DistWiz.cellDisk]

/-- Witness for C6 at the first label of a two-label index. -/
theorem diagonal_zero_witness :
    0 < (["A", "B"] : List String).length ∧
    (DistWiz.rowCellsMem "A" ["A", "B"]
        (DistWiz.readInputFileIntoMemory [])).get ⟨0, by decide⟩ = "0.0" ∧
    (DistWiz.rowCellsDisk [] "A" ["A", "B"]).get ⟨0, by decide⟩ = "0.0" :=
  have h := diagonal_zero [] ["A", "B"] 0 (by decide)
  ⟨by decide, h.1, h.2⟩

/-- C7: a pair of distinct labels mentioned by no valid input line gets the
default fill "1.0" in the in-memory emitter, the disk-scanning emitter, and
the legacy emitter. -/
theorem default_fill_one (lines : List String) (a b : String) (hab : a ≠ b)
    (hno : ∀ l ∈ lines, DistWiz.mentionsPair l a b = false) :
    DistWiz.cellMem (DistWiz.readInputFileIntoMemory lines) a b = "1.0" ∧
    DistWiz.cellDisk (DistWiz.scanRowDistances a lines) a b = "1.0" ∧
    ∀ st ls, Legacy.readSparseMatrix lines = .ok (st, ls) →
      Legacy.cell st a b = "1.0" := by
  have hm : DistWiz.readInputFileIntoMemory lines a b = none :=
    (foldl_mem_no_mention lines hno (fun _ _ => none)).1
  refine ⟨?_, ?_, ?_⟩
  · simp [DistWiz.cellMem, hab, hm]
  · simp [DistWiz.cellDisk, hab, scanRowDistances_eq_mem a b hab lines, hm]
  · intro st ls h
    unfold Legacy.readSparseMatrix at h
    have hst := loop_pair_preserved lines hno h
    unfold Legacy.cell
    rw [if_neg hab, hst]
    decide

/-- Witness for C7 at a pair absent from the input. -/
theorem default_fill_one_witness :
    DistWiz.cellMem (DistWiz.readInputFileIntoMemory ["A B 0.5"]) "A" "C" =
      "1.0" ∧
    DistWiz.cellDisk (DistWiz.scanRowDistances "A" ["A B 0.5"]) "A" "C" =
      "1.0" :=
  have h := default_fill_one ["A B 0.5"] "A" "C" (by decide) (by decide)
  ⟨h.1, h.2.1⟩

/-- C9: an input containing "A B 0.1" and, later, "A B 0.9" (with no later
mention of the pair) resolves (A, B) to 0.9 in the in-memory store, emits
"0.9" in the cell at row A column B, and the legacy ordered-pair store
resolves to 0.9 as well: the later line silently overwrites the earlier. -/
theorem duplicate_last_write_wins (pre mid post : List String)
    (hpost : ∀ l ∈ post, DistWiz.mentionsPair l "A" "B" = false) :
    DistWiz.readInputFileIntoMemory
        (pre ++ "A B 0.1" :: (mid ++ "A B 0.9" :: post)) "A" "B" =
      some (GoFloat.finite (mkRat 9 10)) ∧
    DistWiz.cellMem
        (DistWiz.readInputFileIntoMemory
          (pre ++ "A B 0.1" :: (mid ++ "A B 0.9" :: post))) "A" "B" = "0.9" ∧
    ∀ st ls,
      Legacy.readSparseMatrix (pre ++ "A B 0.1" :: (mid ++ "A B 0.9" :: post)) =
        .ok (st, ls) →
      st ("A", "B") = some (GoFloat.finite (mkRat 9 10)) := by
  have hL : pre ++ "A B 0.1" :: (mid ++ "A B 0.9" :: post) =
      (pre ++ "A B 0.1" :: mid) ++ "A B 0.9" :: post := by
    simp [List.append_assoc]
  rw [hL]
  have hm := mem_resolve (pre ++ "A B 0.1" :: mid) post "A B 0.9"
    (Or.inl (by decide : DistWiz.parseLine "A B 0.9" =
      some ("A", "B", GoFloat.finite (mkRat 9 10)))) hpost
  refine ⟨hm.1, ?_, ?_⟩
  · rw [DistWiz.cellMem, if_neg (by decide : ¬("A" : String) = "B"), hm.1]
    decide
  · intro st ls h
    unfold Legacy.readSparseMatrix at h
    obtain ⟨d2, ls2, h2⟩ := loop_split (pre ++ "A B 0.1" :: mid) h
    rw [loop_cons_good
      (by decide : strFields "A B 0.9" = ["A", "B", "0.9"])
      (by decide : parseFloat "0.9" =
        some (GoFloat.finite (mkRat 9 10)))] at h2
    have hst := loop_pair_preserved post hpost h2
    rw [hst]
    simp [Legacy.updP]

/-- Witness for C9 with the two duplicate lines alone. -/
theorem duplicate_last_write_wins_witness :
    DistWiz.readInputFileIntoMemory ["A B 0.1", "A B 0.9"] "A" "B" =
      some (GoFloat.finite (mkRat 9 10)) ∧
    DistWiz.cellMem
        (DistWiz.readInputFileIntoMemory ["A B 0.1", "A B 0.9"]) "A" "B" =
      "0.9" :=
  have h := duplicate_last_write_wins [] [] [] (by decide)
  ⟨h.1, h.2.1⟩

/-- C10: when a line for the pair (a, b) is followed, later, by a line for
the reversed pair (b, a) with value v2, and no later line mentions the pair,
both orientations of the in-memory store and both corresponding disk-scanning
row lookups resolve to v2, and the emitted cells carry v2 formatted. -/
theorem cross_orientation_last_write_wins (a b line1 line2 : String)
    (v1 v2 : GoFloat) (pre mid post : List String) (hab : a ≠ b)
    (h1 : DistWiz.parseLine line1 = some (a, b, v1))
    (h2 : DistWiz.parseLine line2 = some (b, a, v2))
    (hpost : ∀ l ∈ post, DistWiz.mentionsPair l a b = false) :
    DistWiz.readInputFileIntoMemory (pre ++ line1 :: (mid ++ line2 :: post))
        a b = some v2 ∧
    DistWiz.readInputFileIntoMemory (pre ++ line1 :: (mid ++ line2 :: post))
        b a = some v2 ∧
    DistWiz.cellMem (DistWiz.readInputFileIntoMemory
        (pre ++ line1 :: (mid ++ line2 :: post))) a b = fmt1 v2 ∧
    DistWiz.cellMem (DistWiz.readInputFileIntoMemory
        (pre ++ line1 :: (mid ++ line2 :: post))) b a = fmt1 v2 ∧
    DistWiz.scanRowDistances a (pre ++ line1 :: (mid ++ line2 :: post)) b =
      some v2 ∧
    DistWiz.scanRowDistances b (pre ++ line1 :: (mid ++ line2 :: post)) a =
      some v2 := by
  have hL : pre ++ line1 :: (mid ++ line2 :: post) =
      (pre ++ line1 :: mid) ++ line2 :: post := by
    simp [List.append_assoc]
  rw [hL]
  have hm := mem_resolve (pre ++ line1 :: mid) post line2 (Or.inr h2) hpost
  refine ⟨hm.1, hm.2, ?_, ?_, ?_, ?_⟩
  · rw [DistWiz.cellMem, if_neg hab, hm.1]
  · rw [DistWiz.cellMem, if_neg (Ne.symm hab), hm.2]
  · rw [scanRowDistances_eq_mem a b hab]
    exact hm.1
  · rw [scanRowDistances_eq_mem b a (Ne.symm hab)]
    exact hm.2

/-- Witness for C10 with a reversed duplicate pair. -/
theorem cross_orientation_last_write_wins_witness :
    DistWiz.readInputFileIntoMemory ["A B 0.1", "B A 0.9"] "A" "B" =
      some (GoFloat.finite (mkRat 9 10)) ∧
    DistWiz.readInputFileIntoMemory ["A B 0.1", "B A 0.9"] "B" "A" =
      some (GoFloat.finite (mkRat 9 10)) ∧
    DistWiz.scanRowDistances "A" ["A B 0.1", "B A 0.9"] "B" =
      some (GoFloat.finite (mkRat 9 10)) :=
  have h := cross_orientation_last_write_wins "A" "B" "A B 0.1" "B A 0.9"
    (GoFloat.finite (mkRat 1 10)) (GoFloat.finite (mkRat 9 10)) [] [] []
    (by decide) (by decide) (by decide) (by decide)
  ⟨h.1, h.2.1, h.2.2.2.2.1⟩

/-!
Order lemmas for the label sort and label discovery.
-/

lemma listLe_total : ∀ as bs : List Char,
    listLe as bs = true ∨ listLe bs as = true
  | [], _ => Or.inl rfl
  | _ :: _, [] => Or.inr rfl
  | a :: as, b :: bs => by
    by_cases hab : a < b
    · exact Or.inl (by simp [listLe, hab])
    · by_cases hba : b < a
      · exact Or.inr (by simp [listLe, hba])
      · rcases listLe_total as bs with h | h
        · exact Or.inl (by simpa [listLe, hab, hba] using h)
        · exact Or.inr (by simpa [listLe, hab, hba] using h)

lemma listLe_trans : ∀ as bs cs : List Char,
    listLe as bs = true → listLe bs cs = true → listLe as cs = true
  | [], _, _, _, _ => rfl
  | a :: as, [], _, h1, _ => by simp [listLe] at h1
  | a :: as, b :: bs, [], _, h2 => by simp [listLe] at h2
  | a :: as, b :: bs, c :: cs, h1, h2 => by
    by_cases hab : a < b
    · by_cases hbc : b < c
      · simp [listLe, lt_trans hab hbc]
      · by_cases hcb : c < b
        · simp only [listLe, if_neg hbc, if_pos hcb] at h2
          exact Bool.noConfusion h2
        · have hbc2 : b = c := le_antisymm (not_lt.mp hcb) (not_lt.mp hbc)
          subst hbc2
          simp [listLe, hab]
    · by_cases hba : b < a
      · simp only [listLe, if_neg hab, if_pos hba] at h1
        exact Bool.noConfusion h1
      · have hab2 : a = b := le_antisymm (not_lt.mp hba) (not_lt.mp hab)
        subst hab2
        by_cases hac : a < c
        · simp [listLe, hac]
        · by_cases hca : c < a
          · simp only [listLe, if_neg hac, if_pos hca] at h2
            exact Bool.noConfusion h2
          · simp only [listLe, lt_self_iff_false, if_false] at h1
            simp only [listLe, if_neg hac, if_neg hca] at h2 ⊢
            exact listLe_trans as bs cs h1 h2

instance : IsTotal String strLeR :=
  ⟨fun a b => listLe_total a.toList b.toList⟩

instance : IsTrans String strLeR :=
  ⟨fun a b c => listLe_trans a.toList b.toList c.toList⟩

lemma insertLabel_mem (acc : List String) (x t : String) :
    t ∈ DistWiz.insertLabel acc x ↔ t ∈ acc ∨ t = x := by
  unfold DistWiz.insertLabel
  split_ifs with h
  · constructor
    · exact Or.inl
    · rintro (ht | rfl)
      · exact ht
      · exact h
  · simp

lemma insertLabel_nodup (acc : List String) (x : String) (h : acc.Nodup) :
    (DistWiz.insertLabel acc x).Nodup := by
  unfold DistWiz.insertLabel
  split_ifs with hx
  · exact h
  · simp [List.nodup_append, h, hx]

lemma mem_foldl_scanStep :
    ∀ (lines acc : List String) (t : String),
      t ∈ lines.foldl DistWiz.scanStep acc ↔
        t ∈ acc ∨ ∃ l ∈ lines, lineTok l t
  | [], acc, t => by simp
  | line :: rest, acc, t => by
    rw [List.foldl_cons, mem_foldl_scanStep rest _ t]
    unfold DistWiz.scanStep
    rcases hf : strFields line with _ | ⟨p0, _ | ⟨p1, ps⟩⟩ <;>
        simp only [List.mem_cons]
    · constructor
      · rintro (ht | ⟨l, hl, htok⟩)
        · exact Or.inl ht
        · exact Or.inr ⟨l, Or.inr hl, htok⟩
      · rintro (ht | ⟨l, rfl | hl, htok⟩)
        · exact Or.inl ht
        · simp [lineTok, hf] at htok
        · exact Or.inr ⟨l, hl, htok⟩
    · constructor
      · rintro (ht | ⟨l, hl, htok⟩)
        · exact Or.inl ht
        · exact Or.inr ⟨l, Or.inr hl, htok⟩
      · rintro (ht | ⟨l, rfl | hl, htok⟩)
        · exact Or.inl ht
        · simp [lineTok, hf] at htok
        · exact Or.inr ⟨l, hl, htok⟩
    · rw [insertLabel_mem, insertLabel_mem]
      constructor
      · rintro (((ht | rfl) | rfl) | ⟨l, hl, htok⟩)
        · exact Or.inl ht
        · exact Or.inr ⟨line, Or.inl rfl, by simp [lineTok, hf]⟩
        · exact Or.inr ⟨line, Or.inl rfl, by simp [lineTok, hf]⟩
        · exact Or.inr ⟨l, Or.inr hl, htok⟩
      · rintro (ht | ⟨l, rfl | hl, htok⟩)
        · exact Or.inl (Or.inl (Or.inl ht))
        · simp only [lineTok, hf] at htok
          rcases htok with rfl | rfl
          · exact Or.inl (Or.inl (Or.inr rfl))
          · exact Or.inl (Or.inr rfl)
        · exact Or.inr ⟨l, hl, htok⟩

lemma nodup_foldl_scanStep :
    ∀ (lines acc : List String), acc.Nodup →
      (lines.foldl DistWiz.scanStep acc).Nodup
  | [], _, h => h
  | line :: rest, acc, h => by
    rw [List.foldl_cons]
    refine nodup_foldl_scanStep rest _ ?_
    unfold DistWiz.scanStep
    rcases strFields line with _ | ⟨p0, _ | ⟨p1, ps⟩⟩
    · exact h
    · exact h
    · exact insertLabel_nodup _ _ (insertLabel_nodup _ _ h)

/-- C5: the label header is the set of distinct tokens from the first two
fields of every line with at least two fields, sorted in the ascending
lexicographic order strLeR with no duplicates; the header line is those
labels tab-joined and newline-terminated.  The header is a pure function of
the input lines, hence identical across runs on identical input. -/
theorem header_sorted_labels (lines : List String) :
    List.Sorted strLeR (DistWiz.scanForLabels lines) ∧
    (DistWiz.scanForLabels lines).Nodup ∧
    (∀ t, t ∈ DistWiz.scanForLabels lines ↔ ∃ l ∈ lines, lineTok l t) ∧
    DistWiz.headerLine (DistWiz.scanForLabels lines) =
      String.intercalate "\t" (DistWiz.scanForLabels lines) ++ "\n" := by
  have hperm := List.perm_insertionSort strLeR (DistWiz.scanLabelsSet lines)
  refine ⟨?_, ?_, ?_, rfl⟩
  · exact List.sorted_insertionSort strLeR (DistWiz.scanLabelsSet lines)
  · exact hperm.nodup_iff.mpr (nodup_foldl_scanStep lines [] List.nodup_nil)
  · intro t
    rw [DistWiz.scanForLabels, hperm.mem_iff, DistWiz.scanLabelsSet,
      mem_foldl_scanStep lines [] t]
    simp

/-!
Lemmas on malformed lines: strict failure versus silent skipping.
-/

lemma memStep_skip {line : String} (hbad : DistWiz.parseLine line = none)
    (M : String → String → Option GoFloat) :
    DistWiz.memStep M line = M := by
  unfold DistWiz.memStep
  rw [hbad]

lemma parseLine_of_not_three {line : String}
    (h : (strFields line).length ≠ 3) : DistWiz.parseLine line = none := by
  unfold DistWiz.parseLine
  rcases hf : strFields line with _ | ⟨p0, _ | ⟨p1, _ | ⟨p2, _ | ⟨p3, ps⟩⟩⟩⟩ <;>
      rw [hf] at h <;> first | rfl | exact absurd rfl h

lemma rowStep_skip {line : String} (h : (strFields line).length ≠ 3)
    (l1 : String) (m : String → Option GoFloat) :
    DistWiz.rowStep l1 m line = m := by
  unfold DistWiz.rowStep
  rcases hf : strFields line with _ | ⟨p0, _ | ⟨p1, _ | ⟨p2, _ | ⟨p3, ps⟩⟩⟩⟩ <;>
      rw [hf] at h <;> first | rfl | exact absurd rfl h

lemma readMem_skip_bad {line : String} (hbad : DistWiz.parseLine line = none)
    (pre post : List String) :
    DistWiz.readInputFileIntoMemory (pre ++ line :: post) =
      DistWiz.readInputFileIntoMemory (pre ++ post) := by
  unfold DistWiz.readInputFileIntoMemory
  rw [List.foldl_append, List.foldl_append, List.foldl_cons,
    memStep_skip hbad]

lemma scanRow_skip_bad {line : String} (h : (strFields line).length ≠ 3)
    (l1 : String) (pre post : List String) :
    DistWiz.scanRowDistances l1 (pre ++ line :: post) =
      DistWiz.scanRowDistances l1 (pre ++ post) := by
  unfold DistWiz.scanRowDistances
  rw [List.foldl_append, List.foldl_append, List.foldl_cons,
    rowStep_skip h]

lemma loop_first_bad {line : String} (hbad : DistWiz.parseLine line = none) :
    ∀ (pre : List String),
      (∀ l ∈ pre, (DistWiz.parseLine l).isSome = true) →
      ∀ (post : List String) (d : String × String → Option GoFloat)
        (ls : List String),
        Legacy.loop (pre ++ line :: post) d ls = .error (Legacy.lineError line)
  | [], _, post, d, ls => by
    rw [List.nil_append]
    unfold DistWiz.parseLine at hbad
    unfold Legacy.lineError
    rcases hf : strFields line with _ | ⟨p0, _ | ⟨p1, _ | ⟨p2, _ | ⟨p3, ps⟩⟩⟩⟩ <;>
        rw [hf] at hbad <;> simp only [Legacy.loop, hf]
    cases hp : parseFloat p2 with
    | none => rfl
    | some v => simp [hp] at hbad
  | l0 :: pre2, hpre, post, d, ls => by
    have h0 := hpre l0 (by simp)
    rw [Option.isSome_iff_exists] at h0
    obtain ⟨⟨l1, l2, v⟩, hsome⟩ := h0
    obtain ⟨s, hf, hp⟩ := parseLine_inv hsome
    rw [List.cons_append, loop_cons_good hf hp]
    exact loop_first_bad hbad pre2 (fun l hl => hpre l (by simp [hl])) post _ _

lemma loop_bad_any {line : String} (hbad3 : (strFields line).length ≠ 3) :
    ∀ (lines : List String), line ∈ lines →
      ∀ (d : String × String → Option GoFloat) (ls : List String),
        ∃ e, Legacy.loop lines d ls = .error e
  | [], hmem, _, _ => absurd hmem (by simp)
  | l0 :: rest, hmem, d, ls => by
    rcases hf : strFields l0 with _ | ⟨p0, _ | ⟨p1, _ | ⟨p2, _ | ⟨p3, ps⟩⟩⟩⟩
    · exact ⟨Legacy.FormatError.wrongFieldCount, by simp [Legacy.loop, hf]⟩
    · exact ⟨Legacy.FormatError.wrongFieldCount, by simp [Legacy.loop, hf]⟩
    · exact ⟨Legacy.FormatError.wrongFieldCount, by simp [Legacy.loop, hf]⟩
    · cases hp : parseFloat p2 with
      | none =>
        exact ⟨Legacy.FormatError.badFloat p2, by simp [Legacy.loop, hf, hp]⟩
      | some v =>
        have hne : line ≠ l0 := by
          intro he
          rw [he, hf] at hbad3
          exact hbad3 rfl
        have hmem2 : line ∈ rest := by
          rcases List.mem_cons.mp hmem with he | hm
          · exact absurd he hne
          · exact hm
        obtain ⟨e, he⟩ := loop_bad_any hbad3 rest hmem2
          (Legacy.updP d (p0, p1) v)
          (DistWiz.insertLabel (DistWiz.insertLabel ls p0) p1)
        exact ⟨e, by rw [loop_cons_good hf hp]; exact he⟩
    · exact ⟨Legacy.FormatError.wrongFieldCount, by simp [Legacy.loop, hf]⟩

lemma scanStep_short {line : String} (h : (strFields line).length < 2)
    (acc : List String) : DistWiz.scanStep acc line = acc := by
  unfold DistWiz.scanStep
  rcases hf : strFields line with _ | ⟨p0, _ | ⟨p1, ps⟩⟩ <;> rw [hf] at h <;>
    first | rfl | (simp only [List.length_cons] at h; omega)

/-- C3 counterexample: an input whose second line has only two fields is not
rejected by the in-memory ingest of the threshold program; the store is
populated from the first line and the full matrix, all rows included, is
still emitted. -/
theorem inMemory_ingest_lenient_cex :
    DistWiz.readInputFileIntoMemory ["A B 0.5", "X Y"] "A" "B" =
      some (GoFloat.finite (mkRat 1 2)) ∧
    DistWiz.writeSquareMatrixInMemory ["A B 0.5", "X Y"]
        (DistWiz.scanForLabels ["A B 0.5", "X Y"]) =
      "A\tB\tX\tY\n" ++ "0.0\t0.5\t1.0\t1.0\n" ++ "0.5\t0.0\t1.0\t1.0\n" ++
        "1.0\t1.0\t0.0\t1.0\n" ++ "1.0\t1.0\t1.0\t0.0\n" := by decide

/-- C3 amended: the strict single-pass ingest readSparseMatrix fails with a
FormatError at the first line that does not split into exactly three fields
or whose third field the float parser rejects; the threshold program's
in-memory ingest readInputFileIntoMemory instead skips such a line silently,
and the in-memory pipeline still emits one row per label. -/
theorem strict_vs_lenient_ingest (pre post : List String) (line : String)
    (hpre : ∀ l ∈ pre, (DistWiz.parseLine l).isSome = true)
    (hbad : DistWiz.parseLine line = none) :
    Legacy.readSparseMatrix (pre ++ line :: post) =
      .error (Legacy.lineError line) ∧
    DistWiz.readInputFileIntoMemory (pre ++ line :: post) =
      DistWiz.readInputFileIntoMemory (pre ++ post) ∧
    ∀ labels, (DistWiz.rowsInMemory (pre ++ line :: post) labels).length =
      labels.length := by
  refine ⟨loop_first_bad hbad pre hpre post _ _, readMem_skip_bad hbad pre post,
    fun labels => ?_⟩
  simp [DistWiz.rowsInMemory]

/-- Witness for C3 amended: a good line, then a two-field line, then another
good line. -/
theorem strict_vs_lenient_ingest_witness :
    Legacy.readSparseMatrix ["A B 0.5", "X Y", "B C 0.2"] =
      .error Legacy.FormatError.wrongFieldCount ∧
    (DistWiz.rowsInMemory ["A B 0.5", "X Y", "B C 0.2"]
        ["A", "B", "C"]).length = 3 :=
  have h := strict_vs_lenient_ingest ["A B 0.5"] ["B C 0.2"] "X Y"
    (by decide) (by decide)
  ⟨h.1, h.2.2 ["A", "B", "C"]⟩

/-- C8 counterexample: on the lone two-field line "X Y" both label discovery
and both full pipelines complete; the distance-requiring passes of the
threshold program do not abort, they emit the default-filled matrix. -/
theorem twofield_line_passes_cex :
    DistWiz.scanForLabels ["X Y"] = ["X", "Y"] ∧
    DistWiz.writeSquareMatrix ["X Y"] (DistWiz.scanForLabels ["X Y"]) =
      "X\tY\n0.0\t1.0\n1.0\t0.0\n" ∧
    DistWiz.writeSquareMatrixInMemory ["X Y"] (DistWiz.scanForLabels ["X Y"]) =
      "X\tY\n0.0\t1.0\n1.0\t0.0\n" := by decide

/-- C8 amended: label discovery silently skips lines with fewer than two
fields while a two-field line still contributes both tokens; a line that is
not exactly three fields aborts only the legacy strict ingest, whereas the
threshold program's distance-reading passes (in-memory ingest and disk row
scan) skip it silently. -/
theorem twofield_line_behaviour :
    (∀ (pre post : List String) (line : String),
      (strFields line).length < 2 →
      DistWiz.scanLabelsSet (pre ++ line :: post) =
        DistWiz.scanLabelsSet (pre ++ post)) ∧
    (∀ (lines : List String) (line p0 p1 : String) (rest : List String),
      line ∈ lines → strFields line = p0 :: p1 :: rest →
      p0 ∈ DistWiz.scanForLabels lines ∧ p1 ∈ DistWiz.scanForLabels lines) ∧
    (∀ (lines : List String) (line : String), line ∈ lines →
      (strFields line).length ≠ 3 →
      ∃ e, Legacy.readSparseMatrix lines = .error e) ∧
    (∀ (pre post : List String) (line l1 : String),
      (strFields line).length = 2 →
      DistWiz.readInputFileIntoMemory (pre ++ line :: post) =
        DistWiz.readInputFileIntoMemory (pre ++ post) ∧
      DistWiz.scanRowDistances l1 (pre ++ line :: post) =
        DistWiz.scanRowDistances l1 (pre ++ post)) := by
  refine ⟨?_, ?_, ?_, ?_⟩
  · intro pre post line h
    unfold DistWiz.scanLabelsSet
    rw [List.foldl_append, List.foldl_append, List.foldl_cons,
      scanStep_short h]
  · intro lines line p0 p1 rest hmem hf
    have hperm := List.perm_insertionSort strLeR (DistWiz.scanLabelsSet lines)
    constructor <;>
      · rw [DistWiz.scanForLabels, hperm.mem_iff, DistWiz.scanLabelsSet,
          mem_foldl_scanStep lines []]
        exact Or.inr ⟨line, hmem, by simp [lineTok, hf]⟩
  · intro lines line hmem hbad3
    exact loop_bad_any hbad3 lines hmem _ _
  · intro pre post line l1 h2
    have h3 : (strFields line).length ≠ 3 := by rw [h2]; decide
    exact ⟨readMem_skip_bad (parseLine_of_not_three h3) pre post,
      scanRow_skip_bad h3 l1 pre post⟩

/-- Witness for C8 amended, at the two-field line "X Y" and a one-field
line "X". -/
theorem twofield_line_behaviour_witness :
    "X" ∈ DistWiz.scanForLabels ["X Y"] ∧
    "Y" ∈ DistWiz.scanForLabels ["X Y"] ∧
    (∃ e, Legacy.readSparseMatrix ["X Y"] = .error e) ∧
    DistWiz.scanLabelsSet ["A B 0.5", "X"] =
      DistWiz.scanLabelsSet ["A B 0.5"] :=
  have h := twofield_line_behaviour
  ⟨(h.2.1 ["X Y"] "X Y" "X" "Y" [] (by simp) (by decide)).1,
   (h.2.1 ["X Y"] "X Y" "X" "Y" [] (by simp) (by decide)).2,
   h.2.2.1 ["X Y"] "X Y" (by simp) (by decide),
   h.1 ["A B 0.5"] [] "X" (by decide)⟩
